import Mathlib

/-!
Shallow embedding of the NFG fitness-site backend (`src/backend/app.py` and
`src/backend/seed.py`) for checking the specification claims.

Modeling conventions:
* Python `str` is modeled as Lean `String` with ASCII semantics for
  case mapping; `None` string arguments are modeled as the empty string or
  `Option.none` as noted on each definition.
* Mongo `ObjectId` values and UTC timestamps are modeled as `Nat`; the float
  `rating` field is modeled as `ℚ`.
* A Mongo collection is a `List` of documents.  `find_one` is `List.find?`,
  `insert_one` appends, `update_one` rewrites the first matching document,
  `delete_one` erases the first matching document, `delete_many` filters.
  The unspecified relative order of equal sort keys in a Mongo sort is
  modeled by the stable `List.mergeSort`.
-/

namespace NFG

/-- Character test for the regex class `[a-z0-9]` used by both `slugify`
implementations (lowercase ASCII letter or ASCII digit). -/
def isSlugChar (c : Char) : Bool :=
  (97 ≤ c.toNat && c.toNat ≤ 122) || (48 ≤ c.toNat && c.toNat ≤ 57)

/-- Characters removed by Python `str.strip()` (ASCII whitespace). -/
def isPySpace (c : Char) : Bool :=
  c == ' ' || c == '\t' || c == '\n' || c == '\r' || c == '\x0B' || c == '\x0C'

/-- ASCII model of Python `str.lower()` on one character. -/
def lowerChar (c : Char) : Char :=
  if 65 ≤ c.toNat && c.toNat ≤ 90 then Char.ofNat (c.toNat + 32) else c

/-- Remove the trailing run of characters satisfying `p`. -/
def dropTrailing (p : Char → Bool) (l : List Char) : List Char :=
  (l.reverse.dropWhile p).reverse

/-- Python `str.strip(chars)` on a character list: remove the leading and the
trailing run of characters satisfying `p`. -/
def stripEnds (p : Char → Bool) (l : List Char) : List Char :=
  dropTrailing p (l.dropWhile p)

/-- Python `str.strip()` (whitespace strip) on a `String`. -/
def pyStrip (s : String) : String := ⟨stripEnds isPySpace s.data⟩

/-- Model of `re.sub` with pattern "one or more characters outside [a-z0-9]"
and replacement "-": each maximal run of characters outside the class is
replaced by a single hyphen.  The boolean flag records whether the previous
character was part of such a run. -/
def subRun : Bool → List Char → List Char
  | _, [] => []
  | inRun, c :: cs =>
    if isSlugChar c then c :: subRun false cs
    else if inRun then subRun true cs
    else '-' :: subRun true cs

/-- Model of `re.sub` with pattern "two or more hyphens" and replacement "-"
(seed.py line 51): each maximal run of hyphens is collapsed to one hyphen,
which is the identity on single hyphens. -/
def collapseRun : Bool → List Char → List Char
  | _, [] => []
  | prevHyphen, c :: cs =>
    if c == '-' then
      if prevHyphen then collapseRun true cs
      else '-' :: collapseRun true cs
    else c :: collapseRun false cs

/-- Run state of `subRun` after processing a list (true when the last
character seen was outside `[a-z0-9]`). -/
def runState : Bool → List Char → Bool
  | b, [] => b
  | _, c :: cs => runState (!isSlugChar c) cs

/-- `slugify` from `src/backend/app.py` lines 84-85:
lowercase the text, replace each run of characters outside `[a-z0-9]` with a
single hyphen, and strip hyphens from both ends.  A `None` argument is
modeled as the empty string. -/
def slugify (s : String) : String :=
  ⟨stripEnds (fun c => c == '-') (subRun false (s.data.map lowerChar))⟩

/-- `slugify` from `src/backend/seed.py` lines 48-52: additionally pre-strips
whitespace before lowercasing and collapses repeated hyphens before the final
hyphen strip. -/
def seedSlugify (s : String) : String :=
  ⟨stripEnds (fun c => c == '-')
    (collapseRun false (subRun false ((stripEnds isPySpace s.data).map lowerChar)))⟩

/-- `_split_list` from `src/backend/app.py` lines 88-91: split on newline or
comma separators, strip each piece, drop the empty pieces.  Splitting on
separator runs (the Python pattern) and splitting on single separators agree
here because empty pieces are dropped. -/
def splitList (s : String) : List String :=
  if s = "" then []
  else
    ((s.data.splitOnP (fun c => c == '\n' || c == ',')).map
      (fun l => (⟨stripEnds isPySpace l⟩ : String))).filter (fun t => !(t == ""))

/-- Character test for the regex class of the captured group of `_YT_PAT`
(ASCII letter, digit, underscore or hyphen). -/
def isTokChar (c : Char) : Bool :=
  (65 ≤ c.toNat && c.toNat ≤ 90) || (97 ≤ c.toNat && c.toNat ≤ 122) ||
  (48 ≤ c.toNat && c.toNat ≤ 57) || c == '_' || c == '-'

/-- Match a literal pattern at the start of a list, returning the remainder. -/
def stripLit : List Char → List Char → Option (List Char)
  | [], l => some l
  | _ :: _, [] => none
  | c :: cs, d :: ds => if c == d then stripLit cs ds else none

/-- The captured group of `_YT_PAT`: exactly eleven consecutive characters of
the class `[A-Za-z0-9_-]` at the current position. -/
def tok11 (l : List Char) : Option (List Char) :=
  let t := l.take 11
  if t.length == 11 && t.all isTokChar then some t else none

/-- One attempt of `_YT_PAT` at a fixed position: the URL prefixes of the
optional group are tried in the regex alternation order, and the engine
backtracks to the empty alternative of the optional group when the
eleven-character group fails after a prefix matched. -/
def ytAt (l : List Char) : Option (List Char) :=
  match stripLit "youtu.be/".data l with
  | some r =>
    match tok11 r with
    | some g => some g
    | none => tok11 l
  | none =>
    match stripLit "youtube.com/".data l with
    | some r =>
      match
        (match stripLit "watch?v=".data r with
          | some r2 => some r2
          | none =>
            match stripLit "embed/".data r with
            | some r2 => some r2
            | none => stripLit "shorts/".data r) with
      | some r2 =>
        match tok11 r2 with
        | some g => some g
        | none => tok11 l
      | none => tok11 l
    | none => tok11 l

/-- `re.search` of `_YT_PAT`: try the pattern at every start position from
left to right. -/
def ytSearch : List Char → Option (List Char)
  | [] => none
  | c :: cs =>
    match ytAt (c :: cs) with
    | some g => some g
    | none => ytSearch cs

/-- `_extract_youtube_id` from `src/backend/app.py` lines 99-103: `None` or
empty input gives `None`; otherwise return the first pattern match on the
stripped input, or the stripped input itself when the pattern matches
nowhere. -/
def extractYoutubeId (val : Option String) : Option String :=
  match val with
  | none => none
  | some v =>
    if v = "" then none
    else
      match ytSearch (pyStrip v).data with
      | some g => some ⟨g⟩
      | none => some (pyStrip v)

/-- Occurrence of `pat` as a contiguous substring (used only to state claims
about "known URL shapes" and substring matching). -/
def occursIn (pat : List Char) : List Char → Bool
  | [] => pat.isEmpty
  | c :: cs => (stripLit pat (c :: cs)).isSome || occursIn pat cs

/-- Claim C4 phrase "the input contains one of the known URL shapes". -/
def hasUrlShape (s : String) : Bool :=
  occursIn "youtu.be/".data s.data || occursIn "youtube.com/watch?v=".data s.data ||
  occursIn "youtube.com/embed/".data s.data || occursIn "youtube.com/shorts/".data s.data

/-- A document of the `workouts` collection (spec section 3). -/
structure Workout where
  id : Nat
  name : String
  slug : String
  level : String
  body_part : String
  body_parts : List String
  style : String
  tags : List String
  images : List String
  muscle_image : Option String
  info : Option String
  tips : List String
  youtube_id : Option String
  is_favorite : Bool
  rating : ℚ
  created_at : Nat
  deriving DecidableEq

/-- The parsed POST form of the admin workout create/edit routes.  Raw text
fields hold the raw submitted text (a missing field is the empty string,
matching Python falsiness of `None` and `""`).  The file-upload handling of
`_collect_ordered_images_from_form` and `_collect_muscle_image_from_form` is
modeled by the image-URL list and optional muscle-image URL it returns, and
`float(request.form.get("rating") or 0)` by the parsed rational;
`request.form.get("is_favorite") == "on"` by the boolean. -/
structure WorkoutForm where
  name : String
  level : String
  style : String
  body_parts : String
  body_part : String
  tags : String
  images : List String
  muscle_image : Option String
  info : String
  tips : String
  youtube_id : String
  is_favorite : Bool
  rating : ℚ
  slug : String
  deriving DecidableEq

/-- Outcome of an admin CRUD route: redirect on success, re-rendered form
with a flash message on validation failure, HTTP 404 on a missing id. -/
inductive AdminOutcome where
  | ok
  | validationError
  | notFound
  deriving DecidableEq

/-- The slug a workout create/edit submission stores, from
`slug = (request.form.get("slug") or slugify(name)).strip()` followed by
`if not slug: slug = slugify(name)`, where `name` is the stripped name
field. -/
def resultingSlug (f : WorkoutForm) : String :=
  let name := pyStrip f.name
  let s := pyStrip (if f.slug = "" then slugify name else f.slug)
  if s = "" then slugify name else s

/-- The document inserted by `admin_workout_new` (app.py lines 761-777). -/
def workoutDoc (f : WorkoutForm) (slug : String) (newId now : Nat) : Workout :=
  let body_parts := splitList f.body_parts
  { id := newId
    name := pyStrip f.name
    slug := slug
    level := pyStrip f.level
    body_part :=
      match body_parts with
      | b :: _ => b
      | [] => pyStrip f.body_part
    body_parts := body_parts
    style := pyStrip f.style
    tags := splitList f.tags
    images := f.images
    muscle_image := f.muscle_image
    info := if pyStrip f.info = "" then none else some (pyStrip f.info)
    tips := splitList f.tips
    youtube_id := extractYoutubeId (some f.youtube_id)
    is_favorite := f.is_favorite
    rating := f.rating
    created_at := now }

/-- `admin_workout_new` POST (app.py lines 722-784): validate the name, derive
the slug, reject a slug already used by an existing workout, else insert. -/
def adminWorkoutNew (docs : List Workout) (f : WorkoutForm) (newId now : Nat) :
    AdminOutcome × List Workout :=
  let name := pyStrip f.name
  let slug := resultingSlug f
  if name = "" then (AdminOutcome.validationError, docs)
  else if (docs.find? (fun w => w.slug == slug)).isSome then
    (AdminOutcome.validationError, docs)
  else (AdminOutcome.ok, docs ++ [workoutDoc f slug newId now])

/-- Mongo `update_one`: rewrite the first document matching `p`. -/
def updateFirst {α : Type} (p : α → Bool) (u : α → α) : List α → List α
  | [] => []
  | x :: xs => if p x then u x :: xs else x :: updateFirst p u xs

/-- The `$set` update of `admin_workout_edit` (app.py lines 846-864): every
listed content field is rewritten; `_id` and `created_at` are not listed in
the update document and keep their stored values. -/
def editDoc (f : WorkoutForm) (slug : String) (w : Workout) : Workout :=
  let body_parts := splitList f.body_parts
  { w with
    name := pyStrip f.name
    slug := slug
    level := pyStrip f.level
    body_part :=
      match body_parts with
      | b :: _ => b
      | [] => pyStrip f.body_part
    body_parts := body_parts
    style := pyStrip f.style
    tags := splitList f.tags
    images := f.images
    muscle_image := f.muscle_image
    info := if pyStrip f.info = "" then none else some (pyStrip f.info)
    tips := splitList f.tips
    youtube_id := extractYoutubeId (some f.youtube_id)
    is_favorite := f.is_favorite
    rating := f.rating }

/-- `admin_workout_edit` POST (app.py lines 795-866): 404 on a missing id,
validate the name, reject a slug used by a workout with a different id, else
update the found document in place. -/
def adminWorkoutEdit (docs : List Workout) (i : Nat) (f : WorkoutForm) :
    AdminOutcome × List Workout :=
  match docs.find? (fun w => w.id == i) with
  | none => (AdminOutcome.notFound, docs)
  | some _ =>
    let name := pyStrip f.name
    let slug := resultingSlug f
    if name = "" then (AdminOutcome.validationError, docs)
    else if (docs.find? (fun w => w.slug == slug && !(w.id == i))).isSome then
      (AdminOutcome.validationError, docs)
    else (AdminOutcome.ok, updateFirst (fun w => w.id == i) (editDoc f slug) docs)

/-- A sequence of edit submissions applied one after the other. -/
def applyEdits (docs : List Workout) : List (Nat × WorkoutForm) → List Workout
  | [] => docs
  | (i, f) :: rest => applyEdits (adminWorkoutEdit docs i f).2 rest

/-- Case-insensitive regex test `Regex(q, "i")` against one string field,
modeled for metacharacter-free patterns as case-insensitive substring
containment. -/
def rxTest (q hay : String) : Bool :=
  occursIn (q.data.map lowerChar) (hay.data.map lowerChar)

/-- The free-text `$or` clause of `workouts_browse` over the six searched
fields; Mongo matches a regex against an array field when some element of the
array matches. -/
def qClause (q : String) (w : Workout) : Bool :=
  rxTest q w.name || rxTest q w.level || rxTest q w.body_part ||
  w.body_parts.any (rxTest q) || rxTest q w.style || w.tags.any (rxTest q)

/-- Query parameters of `GET /workouts/browse`; a missing string parameter is
the empty string, `page` and `per_page` arrive as parsed integers. -/
structure BrowseParams where
  level : String
  body : String
  style : String
  q : String
  sort : String
  page : Int
  per_page : Int

/-- The compound `$and` filter built by `workouts_browse` (app.py lines
548-572), with each clause active only when its parameter is truthy. -/
def browsePred (p : BrowseParams) (w : Workout) : Bool :=
  (p.level == "" || w.level == p.level) &&
  (p.style == "" || w.style == p.style) &&
  (p.body == "" || (w.body_part == p.body || w.body_parts.contains p.body)) &&
  (!(p.sort == "favorites") || w.is_favorite) &&
  (pyStrip p.q == "" || qClause (pyStrip p.q) w)

/-- Comparator for the Mongo sort spec chosen by `workouts_browse`: creation
time descending for "recent", rating descending with name-ascending tie-break
for "rating", name ascending otherwise. -/
def browseLe (k : String) (a b : Workout) : Bool :=
  if k = "recent" then decide (b.created_at ≤ a.created_at)
  else if k = "rating" then
    decide (b.rating < a.rating) || (decide (a.rating = b.rating) && decide (a.name ≤ b.name))
  else decide (a.name ≤ b.name)

/-- `workouts_browse` (app.py lines 538-581): clamp the paging parameters,
filter, sort, paginate; returns the requested page and the total match
count. -/
def workoutsBrowse (docs : List Workout) (p : BrowseParams) : List Workout × Nat :=
  let page := max p.page 1
  let per_page := min (max p.per_page 1) 100
  let filtered := docs.filter (browsePred p)
  let sorted := filtered.mergeSort (browseLe p.sort)
  ((sorted.drop ((page - 1) * per_page).toNat).take per_page.toNat, filtered.length)

/-- Ranking of related workouts: rating descending, then creation time
descending, then name ascending. -/
def relLe (a b : Workout) : Bool :=
  decide (b.rating < a.rating) ||
  (decide (a.rating = b.rating) &&
    (decide (b.created_at < a.created_at) ||
      (decide (a.created_at = b.created_at) && decide (a.name ≤ b.name))))

/-- The related-workouts query of `workout_detail` (app.py lines 606-621):
other workouts (slug different from the page's workout) sharing a body part
from the list field or having the same style; when the workout has neither
body parts nor a style the clause degenerates to slug difference alone;
ranked by `relLe` and limited to 6. -/
def relatedFor (docs : List Workout) (w : Workout) : List Workout :=
  let parts := if w.body_parts ≠ [] then w.body_parts
    else if w.body_part ≠ "" then [w.body_part] else []
  let pred : Workout → Bool :=
    if parts.isEmpty && w.style == "" then fun x => !(x.slug == w.slug)
    else fun x =>
      !(x.slug == w.slug) &&
      ((!parts.isEmpty && x.body_parts.any (fun b => parts.contains b)) ||
        (!(w.style == "") && x.style == w.style))
  ((docs.filter pred).mergeSort relLe).take 6

/-- The `parts` list of `workout_detail` as a standalone definition (used in
theorem statements). -/
def detailParts (w : Workout) : List String :=
  if w.body_parts ≠ [] then w.body_parts
  else if w.body_part ≠ "" then [w.body_part] else []

/-- `workout_detail` lookup (app.py lines 600-622): the workout by slug (404
when absent) plus its related list. -/
def workoutDetail (docs : List Workout) (slug : String) :
    Option (Workout × List Workout) :=
  match docs.find? (fun w => w.slug == slug) with
  | none => none
  | some w => some (w, relatedFor docs w)

/-- A document of the `styles` collection; the `active` field may be absent
from a stored document, hence `Option`. -/
structure Style where
  id : Nat
  name : String
  slug : String
  order : Int
  active : Option Bool
  deriving DecidableEq

/-- Python `s.get("active", True)`: the effective active status. -/
def effActive (s : Style) : Bool := s.active.getD true

/-- `admin_style_toggle` (app.py lines 925-933): find the style by id (404
when absent) and set `active` to the negation of its effective status. -/
def adminStyleToggle (styles : List Style) (i : Nat) : List Style :=
  match styles.find? (fun s => s.id == i) with
  | none => styles
  | some s =>
    updateFirst (fun t => t.id == s.id)
      (fun t => { t with active := some (!effActive s) }) styles

/-- A document of the `programs` collection (fields relevant to the admin
hierarchy). -/
structure ProgramDoc where
  id : Nat
  title : String
  slug : String
  order : Int
  active : Bool
  show_on_home : Bool
  created_at : Nat
  deriving DecidableEq

/-- A document of the `program_weeks` collection. -/
structure ProgramWeek where
  id : Nat
  program_id : Nat
  week_number : Nat
  order : Int
  deriving DecidableEq

/-- A document of the `program_items` collection. -/
structure ProgramItem where
  id : Nat
  week_id : Nat
  workout_id : Option Nat
  order : Int
  created_at : Nat
  deriving DecidableEq

/-- The three collections the program hierarchy lives in. -/
structure ProgramStore where
  programs : List ProgramDoc
  program_weeks : List ProgramWeek
  program_items : List ProgramItem
  deriving DecidableEq

/-- Total number of documents across the three program collections. -/
def ProgramStore.size (st : ProgramStore) : Nat :=
  st.programs.length + st.program_weeks.length + st.program_items.length

/-- `admin_program_delete` (app.py lines 1224-1242): find the program (404
when absent), collect its week ids, delete the items of those weeks, then
those weeks, then the program document itself. -/
def adminProgramDelete (st : ProgramStore) (i : Nat) : ProgramStore :=
  match st.programs.find? (fun p => p.id == i) with
  | none => st
  | some prog =>
    let weekIds := (st.program_weeks.filter (fun w => w.program_id == prog.id)).map
      ProgramWeek.id
    let items := if weekIds.isEmpty then st.program_items
      else st.program_items.filter (fun it => !weekIds.contains it.week_id)
    let weeks := if weekIds.isEmpty then st.program_weeks
      else st.program_weeks.filter (fun w => !weekIds.contains w.id)
    { programs := st.programs.eraseP (fun p => p.id == prog.id)
      program_weeks := weeks
      program_items := items }

/-- Claim C3 slug shape: only lowercase ASCII letters, digits and hyphens,
with no leading and no trailing hyphen. -/
def goodSlug (s : String) : Bool :=
  s.data.all (fun c => isSlugChar c || c == '-') &&
  decide (s.data.head? ≠ some '-') && decide (s.data.getLast? ≠ some '-')


theorem updateFirst_map_eq {α β : Type} (p : α → Bool) (u : α → α) (f : α → β)
    (h : ∀ x, f (u x) = f x) (l : List α) : (updateFirst p u l).map f = l.map f := by
  induction l with
  | nil => rfl
  | cons x xs ih =>
    by_cases hp : p x
    · simp [updateFirst, hp, h]
    · simp [updateFirst, hp, ih]

theorem styleToggle_cons_hit (h : Style) (t : List Style) (i : Nat) (hi : h.id = i) :
    adminStyleToggle (h :: t) i = { h with active := some (!effActive h) } :: t := by
  have hp : (h.id == i) = true := by simp [hi]
  have hfind : List.find? (fun s => s.id == i) (h :: t) = some h := by
    simp [List.find?_cons, hp]
  unfold adminStyleToggle
  rw [hfind]
  simp [updateFirst]

theorem styleToggle_cons_miss (h : Style) (t : List Style) (i : Nat) (hi : ¬ h.id = i) :
    adminStyleToggle (h :: t) i = h :: adminStyleToggle t i := by
  have hp : (h.id == i) = false := by simp [hi]
  have hstep : List.find? (fun s => s.id == i) (h :: t) =
      List.find? (fun s => s.id == i) t := by
    simp [List.find?_cons, hp]
  unfold adminStyleToggle
  rw [hstep]
  cases hf : t.find? (fun s => s.id == i) with
  | none => simp
  | some s =>
    have hsid : s.id = i := by simpa [beq_iff_eq] using List.find?_some hf
    have hph : (h.id == s.id) = false := by simp [hsid, hi]
    simp [updateFirst, hph]

/-- Claim C9: applying the admin style toggle twice restores every style's effective
active status, and a single toggle changes no field other than `active`. -/
theorem style_toggle_involutive (styles : List Style) (i : Nat) :
    (adminStyleToggle (adminStyleToggle styles i) i).map
        (fun s => (s.id, s.name, s.slug, s.order, effActive s)) =
      styles.map (fun s => (s.id, s.name, s.slug, s.order, effActive s)) ∧
    (adminStyleToggle styles i).map (fun s => (s.id, s.name, s.slug, s.order)) =
      styles.map (fun s => (s.id, s.name, s.slug, s.order)) := by
  constructor
  · induction styles with
    | nil => rfl
    | cons h t ih =>
      by_cases hi : h.id = i
      · rw [styleToggle_cons_hit h t i hi,
          styleToggle_cons_hit { h with active := some (!effActive h) } t i hi]
        simp [effActive]
      · rw [styleToggle_cons_miss h t i hi, styleToggle_cons_miss h _ i hi]
        simpa using ih
  · cases hfind : styles.find? (fun s => s.id == i) with
    | none => unfold adminStyleToggle; rw [hfind]
    | some s =>
      unfold adminStyleToggle
      rw [hfind]
      exact updateFirst_map_eq (fun t => t.id == s.id)
        (fun t => { t with active := some (!effActive s) })
        (fun s => (s.id, s.name, s.slug, s.order)) (fun x => rfl) styles

theorem edit_keeps_id_created (docs : List Workout) (i : Nat) (f : WorkoutForm) :
    ((adminWorkoutEdit docs i f).2).map (fun w => (w.id, w.created_at)) =
      docs.map (fun w => (w.id, w.created_at)) := by
  unfold adminWorkoutEdit
  cases hf : docs.find? (fun w => w.id == i) with
  | none => rfl
  | some w =>
    by_cases h1 : pyStrip f.name = ""
    · simp [h1]
    · by_cases h2 : (docs.find? fun w => w.slug == resultingSlug f && !(w.id == i)).isSome = true
      · simp [h1, h2]
      · simp only [h1]
        simp [h2]
        exact updateFirst_map_eq (fun w => w.id == i) (editDoc f (resultingSlug f))
          (fun w => (w.id, w.created_at)) (fun x => rfl) docs

/-- Claim C7: a workout's `created_at` (and its id) is written exactly once, at
creation, with the creation timestamp; no sequence of admin edit submissions
changes any stored workout's id or `created_at`. -/
theorem created_at_immutable :
    (∀ (docs : List Workout) (f : WorkoutForm) (newId now : Nat),
      ((adminWorkoutNew docs f newId now).2).map (fun w => (w.id, w.created_at)) =
        docs.map (fun w => (w.id, w.created_at)) ++
          (if (adminWorkoutNew docs f newId now).1 = AdminOutcome.ok
            then [(newId, now)] else [])) ∧
    (∀ (docs : List Workout) (edits : List (Nat × WorkoutForm)),
      (applyEdits docs edits).map (fun w => (w.id, w.created_at)) =
        docs.map (fun w => (w.id, w.created_at))) := by
  constructor
  · intro docs f newId now
    unfold adminWorkoutNew
    by_cases h1 : pyStrip f.name = ""
    · simp [h1]
    · by_cases h2 : (docs.find? fun w => w.slug == resultingSlug f).isSome = true
      · simp [h1, h2]
      · simp [h1, h2, workoutDoc]
  · intro docs edits
    induction edits generalizing docs with
    | nil => rfl
    | cons e rest ih =>
      cases e with
      | mk i f =>
        simp only [applyEdits]
        rw [ih, edit_keeps_id_created]

/-- Claim C2: a workout create or edit whose resulting slug is already used by a
workout with a different identifier fails validation and leaves the
collection unchanged. -/
theorem duplicate_slug_rejected :
    (∀ (docs : List Workout) (f : WorkoutForm) (newId now : Nat),
      (∃ w ∈ docs, w.slug = resultingSlug f) →
      adminWorkoutNew docs f newId now = (AdminOutcome.validationError, docs)) ∧
    (∀ (docs : List Workout) (i : Nat) (f : WorkoutForm),
      (∃ w ∈ docs, w.id = i) →
      (∃ w ∈ docs, w.slug = resultingSlug f ∧ w.id ≠ i) →
      adminWorkoutEdit docs i f = (AdminOutcome.validationError, docs)) := by
  constructor
  · intro docs f newId now hex
    have hsome : (docs.find? fun w => w.slug == resultingSlug f).isSome = true := by
      rw [List.find?_isSome]
      obtain ⟨w, hw, hs⟩ := hex
      exact ⟨w, hw, by simp [hs]⟩
    unfold adminWorkoutNew
    by_cases h1 : pyStrip f.name = "" <;> simp [h1, hsome]
  · intro docs i f hid hex
    have hidsome : (docs.find? fun w => w.id == i).isSome = true := by
      rw [List.find?_isSome]
      obtain ⟨w, hw, hs⟩ := hid
      exact ⟨w, hw, by simp [hs]⟩
    obtain ⟨w0, hw0⟩ := Option.isSome_iff_exists.mp hidsome
    have hsome : (docs.find? fun w => w.slug == resultingSlug f && !(w.id == i)).isSome = true := by
      rw [List.find?_isSome]
      obtain ⟨w, hw, hs, hne⟩ := hex
      exact ⟨w, hw, by simp [hs, beq_iff_eq, hne]⟩
    unfold adminWorkoutEdit
    rw [hw0]
    by_cases h1 : pyStrip f.name = "" <;> simp [h1, hsome]

def wPush : Workout :=
  ⟨1, "Push-Up", "push-up", "Beginner", "Chest", ["Chest"], "BodyWeight", ["push"],
    [], none, none, [], none, true, 4, 100⟩

def wSquat : Workout :=
  ⟨2, "Goblet Squat", "goblet-squat", "Beginner", "Legs", ["Legs"], "Dumbbell", ["squat"],
    [], none, none, [], none, false, 4, 101⟩

def formDup : WorkoutForm :=
  ⟨"Push Up Again", "Beginner", "BodyWeight", "Chest", "", "", [], none, "", "", "",
    false, 3, "push-up"⟩

theorem duplicate_slug_rejected_witness :
    adminWorkoutNew [wPush] formDup 2 200 = (AdminOutcome.validationError, [wPush]) ∧
    adminWorkoutEdit [wPush, wSquat] 2 formDup =
      (AdminOutcome.validationError, [wPush, wSquat]) :=
  ⟨duplicate_slug_rejected.1 [wPush] formDup 2 200 ⟨wPush, by decide, by decide⟩,
   duplicate_slug_rejected.2 [wPush, wSquat] 2 formDup ⟨wSquat, by decide, by decide⟩
     ⟨wPush, by decide, by decide, by decide⟩⟩

theorem subRun_chars (l : List Char) :
    ∀ b, ∀ c ∈ subRun b l, (isSlugChar c || c == '-') = true := by
  induction l with
  | nil => intro b c hc; simp [subRun] at hc
  | cons a t ih =>
    intro b c hc
    by_cases ha : isSlugChar a
    · rw [subRun, if_pos ha] at hc
      rcases List.mem_cons.mp hc with rfl | hmem
      · simp [ha]
      · exact ih false c hmem
    · rw [subRun, if_neg (by simp [ha])] at hc
      cases b with
      | true => rw [if_pos rfl] at hc; exact ih true c hc
      | false =>
        rw [if_neg (by simp)] at hc
        rcases List.mem_cons.mp hc with rfl | hmem
        · simp
        · exact ih true c hmem

theorem head?_dropWhile_not (p : Char → Bool) (l : List Char) (c : Char)
    (h : (l.dropWhile p).head? = some c) : p c = false := by
  induction l with
  | nil => simp at h
  | cons a t ih =>
    rw [List.dropWhile_cons] at h
    by_cases ha : p a
    · rw [if_pos ha] at h; exact ih h
    · rw [if_neg ha] at h
      simp only [List.head?_cons, Option.some.injEq] at h
      subst h
      simpa using ha

theorem getLast?_dropTrailing (p : Char → Bool) (l : List Char) (c : Char)
    (h : (dropTrailing p l).getLast? = some c) : p c = false := by
  unfold dropTrailing at h
  rw [List.getLast?_reverse] at h
  exact head?_dropWhile_not p l.reverse c h

theorem head?_stripEnds (p : Char → Bool) (l : List Char) (c : Char)
    (h : (stripEnds p l).head? = some c) : p c = false := by
  unfold stripEnds at h
  have hu : dropTrailing p (l.dropWhile p) ++ ((l.dropWhile p).reverse.takeWhile p).reverse
      = l.dropWhile p := by
    unfold dropTrailing
    rw [← List.reverse_append, List.takeWhile_append_dropWhile, List.reverse_reverse]
  have h2 : (l.dropWhile p).head? = some c := by
    rw [← hu, List.head?_append, h]; rfl
  exact head?_dropWhile_not p l c h2

theorem getLast?_stripEnds (p : Char → Bool) (l : List Char) (c : Char)
    (h : (stripEnds p l).getLast? = some c) : p c = false :=
  getLast?_dropTrailing p _ c h

theorem mem_stripEnds (p : Char → Bool) (l : List Char) (c : Char)
    (h : c ∈ stripEnds p l) : c ∈ l := by
  unfold stripEnds dropTrailing at h
  rw [List.mem_reverse] at h
  have h2 := (List.dropWhile_sublist p).subset h
  rw [List.mem_reverse] at h2
  exact (List.dropWhile_sublist p).subset h2

theorem goodSlug_slugify (s : String) : goodSlug (slugify s) = true := by
  unfold goodSlug
  rw [Bool.and_eq_true, Bool.and_eq_true]
  refine ⟨⟨List.all_eq_true.mpr ?_, ?_⟩, ?_⟩
  · intro c hc
    exact subRun_chars _ false c (mem_stripEnds _ _ c hc)
  · rw [decide_eq_true_eq]
    intro heq
    have := head?_stripEnds (fun c => c == '-') _ '-' heq
    simp at this
  · rw [decide_eq_true_eq]
    intro heq
    have := getLast?_stripEnds (fun c => c == '-') _ '-' heq
    simp at this

theorem slug_not_space (c : Char) (h : isSlugChar c = true) : isPySpace c = false := by
  cases hsp : isPySpace c
  · rfl
  · exfalso
    simp [isPySpace] at hsp
    rcases hsp with ((((rfl | rfl) | rfl) | rfl) | rfl) | rfl <;> exact absurd h (by decide)

theorem dropWhile_eq_self_of (p : Char → Bool) (l : List Char)
    (h : ∀ c ∈ l, p c = false) : l.dropWhile p = l := by
  cases l with
  | nil => rfl
  | cons a t =>
    rw [List.dropWhile_cons, if_neg]
    simp [h a (List.mem_cons_self a t)]

theorem stripEnds_eq_self (p : Char → Bool) (l : List Char)
    (h : ∀ c ∈ l, p c = false) : stripEnds p l = l := by
  unfold stripEnds dropTrailing
  rw [dropWhile_eq_self_of p l h]
  rw [dropWhile_eq_self_of p l.reverse (fun c hc => h c (List.mem_reverse.mp hc))]
  exact List.reverse_reverse l

theorem pyStrip_slugify (s : String) : pyStrip (slugify s) = slugify s := by
  have hns : ∀ c ∈ (slugify s).data, isPySpace c = false := by
    intro c hc
    have hchar := subRun_chars _ false c (mem_stripEnds _ _ c hc)
    rw [Bool.or_eq_true] at hchar
    rcases hchar with h | h
    · exact slug_not_space c h
    · have hc2 : c = '-' := by simpa using h
      subst hc2; decide
  unfold pyStrip
  rw [stripEnds_eq_self _ _ hns]

theorem resultingSlug_of_blank (f : WorkoutForm) (h : f.slug = "") :
    resultingSlug f = slugify (pyStrip f.name) := by
  unfold resultingSlug
  simp [h, pyStrip_slugify]

def formBad : WorkoutForm :=
  ⟨"X", "", "", "", "", "", [], none, "", "", "", false, 0, "Bad_Slug!"⟩

/-- Claim C3 counterexample: a user-submitted slug is stored after whitespace
trimming only, so the create route stores the slug "Bad_Slug!", which is not
a lowercase hyphenated identifier. -/
theorem slug_shape_counterexample :
    (adminWorkoutNew [] formBad 1 0).1 = AdminOutcome.ok ∧
    ((adminWorkoutNew [] formBad 1 0).2).map (fun w => w.slug) = ["Bad_Slug!"] ∧
    goodSlug "Bad_Slug!" = false := by decide

/-- Claim C3 amended: every slug derived by `slugify` is a URL-safe lowercase
hyphenated identifier with no edge hyphens, and when the submitted slug is
blank the stored slug is exactly the slugified stripped name. -/
theorem slug_shape_amended :
    (∀ s : String, goodSlug (slugify s) = true) ∧
    (∀ f : WorkoutForm, f.slug = "" → resultingSlug f = slugify (pyStrip f.name)) :=
  ⟨goodSlug_slugify, resultingSlug_of_blank⟩

def formNoSlug : WorkoutForm :=
  ⟨" My Workout ", "Beginner", "", "", "", "", [], none, "", "", "", false, 0, ""⟩

theorem slug_shape_amended_witness :
    goodSlug (slugify "x y") = true ∧
    resultingSlug formNoSlug = slugify (pyStrip formNoSlug.name) :=
  ⟨slug_shape_amended.1 "x y", slug_shape_amended.2 formNoSlug rfl⟩

theorem tok11_spec (l g : List Char) (h : tok11 l = some g) :
    g.length = 11 ∧ g.all isTokChar = true := by
  simp only [tok11] at h
  split at h
  · rename_i hc
    rw [Option.some.injEq] at h
    subst h
    rw [Bool.and_eq_true] at hc
    exact ⟨by simpa using hc.1, hc.2⟩
  · exact absurd h (by simp)

theorem ytAt_spec (l g : List Char) (h : ytAt l = some g) :
    g.length = 11 ∧ g.all isTokChar = true := by
  unfold ytAt at h
  repeat' split at h
  all_goals
    first
      | exact tok11_spec _ _ h
      | (rw [Option.some.injEq] at h; subst h; exact tok11_spec _ _ (by assumption))

theorem ytSearch_spec (l g : List Char) (h : ytSearch l = some g) :
    g.length = 11 ∧ g.all isTokChar = true := by
  induction l with
  | nil => simp [ytSearch] at h
  | cons c cs ih =>
    have hdef : ytSearch (c :: cs) =
        match ytAt (c :: cs) with
        | some g => some g
        | none => ytSearch cs := rfl
    rw [hdef] at h
    cases hy : ytAt (c :: cs) with
    | some g1 =>
      rw [hy] at h
      rw [Option.some.injEq] at h
      subst h
      exact ytAt_spec _ _ hy
    | none =>
      rw [hy] at h
      exact ih h

/-- Claim C4 counterexample: the input "abcdefghijkl" contains no known URL shape,
yet extraction returns the first eleven-character token "abcdefghijk" rather
than the trimmed raw string. -/
theorem youtube_id_counterexample :
    hasUrlShape "abcdefghijkl" = false ∧
    extractYoutubeId (some "abcdefghijkl") = some "abcdefghijk" ∧
    extractYoutubeId (some "abcdefghijkl") ≠ some "abcdefghijkl" := by decide

/-- Claim C4 amended: extraction returns the first eleven-character run of the
class `[A-Za-z0-9_-]` found by the pattern search (which also recognizes the
known URL prefixes at the match position), and returns the trimmed raw string
exactly when the search finds no such token; the three cited examples hold. -/
theorem youtube_id_amended :
    extractYoutubeId (some "https://youtu.be/dQw4w9WgXcQ") = some "dQw4w9WgXcQ" ∧
    extractYoutubeId (some "https://www.youtube.com/watch?v=dQw4w9WgXcQ") =
      some "dQw4w9WgXcQ" ∧
    extractYoutubeId (some "dQw4w9WgXcQ") = some "dQw4w9WgXcQ" ∧
    (∀ v : String, v ≠ "" →
      (ytSearch (pyStrip v).data = none → extractYoutubeId (some v) = some (pyStrip v)) ∧
      (∀ g, ytSearch (pyStrip v).data = some g →
        extractYoutubeId (some v) = some ⟨g⟩ ∧ g.length = 11 ∧ g.all isTokChar = true)) := by
  refine ⟨by decide, by decide, by decide, ?_⟩
  intro v hv
  constructor
  · intro hn
    simp only [extractYoutubeId]
    rw [if_neg hv, hn]
  · intro g hg
    refine ⟨?_, ytSearch_spec _ _ hg⟩
    simp only [extractYoutubeId]
    rw [if_neg hv, hg]

theorem youtube_id_amended_witness :
    extractYoutubeId (some "no id here!") = some (pyStrip "no id here!") ∧
    extractYoutubeId (some "dQw4w9WgXcQ extra") = some (⟨"dQw4w9WgXcQ".data⟩ : String) :=
  ⟨(youtube_id_amended.2.2.2 "no id here!" (by decide)).1 (by decide),
   ((youtube_id_amended.2.2.2 "dQw4w9WgXcQ extra" (by decide)).2
     "dQw4w9WgXcQ".data (by decide)).1⟩

theorem length_filter_not_add {α : Type} (p : α → Bool) (l : List α) :
    (l.filter (fun a => !p a)).length + (l.filter p).length = l.length := by
  induction l with
  | nil => rfl
  | cons a t ih => by_cases h : p a <;> simp [List.filter_cons, h] <;> omega

/-- Claim C1: deleting a program removes exactly its N weeks, its M items and the
program document itself (N+M+1 documents), and afterwards no program-week
references the deleted program and no program-item references one of its
weeks. -/
theorem program_delete_cascade (st : ProgramStore) (i : Nat)
    (hmem : ∃ p ∈ st.programs, p.id = i)
    (hnodup : (st.program_weeks.map ProgramWeek.id).Nodup) :
    (adminProgramDelete st i).size +
        ((st.program_weeks.filter (fun w => w.program_id == i)).length +
          (st.program_items.filter (fun it =>
            ((st.program_weeks.filter (fun w => w.program_id == i)).map
              ProgramWeek.id).contains it.week_id)).length + 1) =
      st.size ∧
    (∀ w ∈ (adminProgramDelete st i).program_weeks, w.program_id ≠ i) ∧
    (∀ it ∈ (adminProgramDelete st i).program_items, ∀ w ∈ st.program_weeks,
      w.program_id = i → it.week_id ≠ w.id) := by
  have hfs : (st.programs.find? (fun p => p.id == i)).isSome = true := by
    rw [List.find?_isSome]
    obtain ⟨p, hp, hpi⟩ := hmem
    exact ⟨p, hp, by simp [hpi]⟩
  obtain ⟨prog, hfind⟩ := Option.isSome_iff_exists.mp hfs
  have hpid : prog.id = i := by simpa using List.find?_some hfind
  have hprogmem : prog ∈ st.programs := List.mem_of_find?_eq_some hfind
  subst hpid
  have hprogs : (st.programs.eraseP (fun p => p.id == prog.id)).length + 1 =
      st.programs.length :=
    List.length_eraseP_add_one hprogmem (by simp)
  by_cases hemp :
      ((st.program_weeks.filter (fun w => w.program_id == prog.id)).map
        ProgramWeek.id).isEmpty = true
  · have hnil : st.program_weeks.filter (fun w => w.program_id == prog.id) = [] := by
      rw [List.isEmpty_iff, List.map_eq_nil_iff] at hemp
      exact hemp
    have hnoweek : ∀ w ∈ st.program_weeks, w.program_id ≠ prog.id := by
      intro w hw hwp
      exact absurd (by simp [hwp]) (List.filter_eq_nil_iff.mp hnil w hw)
    refine ⟨?_, ?_, ?_⟩
    · simp only [adminProgramDelete, hfind, hemp, if_pos, hnil]
      simp [ProgramStore.size]
      omega
    · simp only [adminProgramDelete, hfind, hemp, if_pos]
      exact hnoweek
    · simp only [adminProgramDelete, hfind, hemp, if_pos]
      intro it hit w hw hwp
      exact absurd hwp (hnoweek w hw)
  · have hcontains : ∀ a : Nat,
        (((st.program_weeks.filter (fun w => w.program_id == prog.id)).map
          ProgramWeek.id).contains a = true) ↔
        a ∈ ((st.program_weeks.filter (fun w => w.program_id == prog.id)).map
          ProgramWeek.id) := by
      intro a; simp [List.contains]
    have hcong : st.program_weeks.filter (fun w =>
        ((st.program_weeks.filter (fun w2 => w2.program_id == prog.id)).map
          ProgramWeek.id).contains w.id) =
        st.program_weeks.filter (fun w => w.program_id == prog.id) := by
      apply List.filter_congr
      intro w hw
      cases hac : ((st.program_weeks.filter (fun w2 => w2.program_id == prog.id)).map
          ProgramWeek.id).contains w.id with
      | true =>
        rw [hcontains] at hac
        obtain ⟨w2, hw2f, hw2id⟩ := List.mem_map.mp hac
        have hw2mem := List.mem_filter.mp hw2f
        have heq : w2 = w :=
          List.inj_on_of_nodup_map hnodup hw2mem.1 hw hw2id
        rw [← heq]
        exact hw2mem.2.symm
      | false =>
        cases hwp : (w.program_id == prog.id) with
        | true =>
          exfalso
          have hwin : w ∈ st.program_weeks.filter (fun w2 => w2.program_id == prog.id) :=
            List.mem_filter.mpr ⟨hw, hwp⟩
          have : ((st.program_weeks.filter (fun w2 => w2.program_id == prog.id)).map
              ProgramWeek.id).contains w.id = true :=
            (hcontains w.id).mpr (List.mem_map.mpr ⟨w, hwin, rfl⟩)
          rw [this] at hac
          cases hac
        | false => rfl
    refine ⟨?_, ?_, ?_⟩
    · have hweeks := length_filter_not_add (fun w =>
        ((st.program_weeks.filter (fun w2 => w2.program_id == prog.id)).map
          ProgramWeek.id).contains w.id) st.program_weeks
      rw [hcong] at hweeks
      have hitems := length_filter_not_add (fun it =>
        ((st.program_weeks.filter (fun w2 => w2.program_id == prog.id)).map
          ProgramWeek.id).contains it.week_id) st.program_items
      simp only [adminProgramDelete, hfind, hemp, if_neg, Bool.false_eq_true,
        not_false_iff]
      simp only [ProgramStore.size]
      omega
    · simp only [adminProgramDelete, hfind, hemp, if_neg, Bool.false_eq_true,
        not_false_iff]
      intro w hw hwp
      have hmf := List.mem_filter.mp hw
      have hwin : w ∈ st.program_weeks.filter (fun w2 => w2.program_id == prog.id) :=
        List.mem_filter.mpr ⟨hmf.1, by simp [hwp]⟩
      have hcon : ((st.program_weeks.filter (fun w2 => w2.program_id == prog.id)).map
          ProgramWeek.id).contains w.id = true :=
        (hcontains w.id).mpr (List.mem_map.mpr ⟨w, hwin, rfl⟩)
      rw [hcon] at hmf
      simp at hmf
    · simp only [adminProgramDelete, hfind, hemp, if_neg, Bool.false_eq_true,
        not_false_iff]
      intro it hit w hw hwp heq
      have hmf := List.mem_filter.mp hit
      have hwin : w ∈ st.program_weeks.filter (fun w2 => w2.program_id == prog.id) :=
        List.mem_filter.mpr ⟨hw, by simp [hwp]⟩
      have hcon : ((st.program_weeks.filter (fun w2 => w2.program_id == prog.id)).map
          ProgramWeek.id).contains it.week_id = true := by
        rw [heq]
        exact (hcontains w.id).mpr (List.mem_map.mpr ⟨w, hwin, rfl⟩)
      rw [hcon] at hmf
      simp at hmf

def storeSample : ProgramStore :=
  ⟨[⟨1, "Hypertrophy Block", "hypertrophy-block", 0, true, true, 50⟩,
    ⟨2, "Cutting Block", "cutting-block", 1, true, false, 60⟩],
   [⟨10, 1, 1, 0⟩, ⟨11, 1, 2, 1⟩, ⟨12, 2, 1, 0⟩],
   [⟨100, 10, some 1, 0, 70⟩, ⟨101, 10, none, 1, 71⟩, ⟨102, 11, some 1, 0, 72⟩,
    ⟨103, 12, none, 0, 73⟩]⟩

theorem program_delete_cascade_witness :
    (adminProgramDelete storeSample 1).size + (2 + 3 + 1) = storeSample.size ∧
    (adminProgramDelete storeSample 1).program_weeks = [⟨12, 2, 1, 0⟩] ∧
    (adminProgramDelete storeSample 1).program_items = [⟨103, 12, none, 0, 73⟩] := by
  have h := program_delete_cascade storeSample 1 (by decide) (by decide)
  exact ⟨h.1, by decide, by decide⟩

theorem browseLe_rating_eq :
    browseLe "rating" = fun a b =>
      decide (b.rating < a.rating) ||
        (decide (a.rating = b.rating) && decide (a.name ≤ b.name)) := rfl

theorem rating_trans : ∀ a b c : Workout, browseLe "rating" a b = true →
    browseLe "rating" b c = true → browseLe "rating" a c = true := by
  intro a b c hab hbc
  rw [browseLe_rating_eq] at hab hbc ⊢
  simp only [Bool.or_eq_true, Bool.and_eq_true, decide_eq_true_eq] at hab hbc ⊢
  rcases hab with h1 | ⟨h1, h2⟩ <;> rcases hbc with h3 | ⟨h3, h4⟩
  · exact Or.inl (lt_trans h3 h1)
  · exact Or.inl (by rw [← h3]; exact h1)
  · exact Or.inl (by rw [h1]; exact h3)
  · exact Or.inr ⟨h1.trans h3, h2.trans h4⟩

theorem rating_total : ∀ a b : Workout,
    (browseLe "rating" a b || browseLe "rating" b a) = true := by
  intro a b
  rw [browseLe_rating_eq]
  simp only [Bool.or_eq_true, Bool.and_eq_true, decide_eq_true_eq]
  rcases lt_trichotomy a.rating b.rating with h | h | h
  · exact Or.inr (Or.inl h)
  · rcases le_total a.name b.name with hn | hn
    · exact Or.inl (Or.inr ⟨h, hn⟩)
    · exact Or.inr (Or.inr ⟨h.symm, hn⟩)
  · exact Or.inl (Or.inl h)

theorem mem_browse_result (docs : List Workout) (p : BrowseParams) (w : Workout)
    (hw : w ∈ (workoutsBrowse docs p).1) : w ∈ docs ∧ browsePred p w = true := by
  simp only [workoutsBrowse] at hw
  have h1 : w ∈ (docs.filter (browsePred p)).mergeSort (browseLe p.sort) :=
    (List.drop_sublist _ _).subset ((List.take_sublist _ _).subset hw)
  rw [List.mem_mergeSort] at h1
  exact ⟨(List.mem_filter.mp h1).1, (List.mem_filter.mp h1).2⟩

/-- Claim C5: a browse request with level Beginner and sort rating returns only
Beginner workouts, ordered by rating descending with ties broken by name
ascending. -/
theorem browse_beginner_rating (docs : List Workout) (body style q : String)
    (page per_page : Int) :
    (((workoutsBrowse docs ⟨"Beginner", body, style, q, "rating", page, per_page⟩).1).all
      (fun w => w.level == "Beginner")) = true ∧
    ((workoutsBrowse docs ⟨"Beginner", body, style, q, "rating", page, per_page⟩).1).Pairwise
      (fun a b => b.rating < a.rating ∨ (a.rating = b.rating ∧ a.name ≤ b.name)) := by
  constructor
  · rw [List.all_eq_true]
    intro w hw
    have h := (mem_browse_result docs _ w hw).2
    simp only [browsePred, show (("Beginner" : String) == "") = false from by decide,
      Bool.false_or, Bool.and_eq_true] at h
    exact h.1.1.1.1
  · have hs := List.sorted_mergeSort rating_trans rating_total
      (docs.filter (browsePred ⟨"Beginner", body, style, q, "rating", page, per_page⟩))
    have hp : ((workoutsBrowse docs
        ⟨"Beginner", body, style, q, "rating", page, per_page⟩).1).Pairwise
        (fun a b => browseLe "rating" a b = true) := by
      simp only [workoutsBrowse]
      exact List.Pairwise.sublist
        ((List.take_sublist _ _).trans (List.drop_sublist _ _)) hs
    refine hp.imp ?_
    intro a b hab
    rw [browseLe_rating_eq] at hab
    simpa only [Bool.or_eq_true, Bool.and_eq_true, decide_eq_true_eq] using hab

/-- Claim C6: when the free-text token matches no name, level, body part or style of
any stored workout, the browse query returns exactly the workouts carrying a
matching tag: the total is their count and the page is cut from their sorted
list. -/
theorem free_text_tag_only (docs : List Workout) (q : String) (page per_page : Int)
    (hq : pyStrip q = q) (hne : ¬ q = "")
    (honly : ∀ w ∈ docs,
      rxTest q w.name = false ∧ rxTest q w.level = false ∧ rxTest q w.body_part = false ∧
      (∀ b ∈ w.body_parts, rxTest q b = false) ∧ rxTest q w.style = false) :
    (workoutsBrowse docs ⟨"", "", "", q, "name", page, per_page⟩).2 =
      (docs.filter (fun w => w.tags.any (rxTest q))).length ∧
    (workoutsBrowse docs ⟨"", "", "", q, "name", page, per_page⟩).1 =
      (((docs.filter (fun w => w.tags.any (rxTest q))).mergeSort
        (browseLe "name")).drop
          ((max page 1 - 1) * min (max per_page 1) 100).toNat).take
        (min (max per_page 1) 100).toNat := by
  have hfeq : docs.filter (browsePred ⟨"", "", "", q, "name", page, per_page⟩) =
      docs.filter (fun w => w.tags.any (rxTest q)) := by
    apply List.filter_congr
    intro w hw
    obtain ⟨h1, h2, h3, h4, h5⟩ := honly w hw
    have hany : w.body_parts.any (rxTest q) = false :=
      List.any_eq_false.mpr (fun b hb => by simp [h4 b hb])
    have hb : (q == "") = false := by simp [hne]
    simp [browsePred, qClause, hq, hb, h1, h2, h3, h5, hany]
  constructor
  · simp only [workoutsBrowse]
    rw [hfeq]
  · simp only [workoutsBrowse]
    rw [hfeq]

def wBike : Workout :=
  ⟨3, "Bike Sprints", "bike-sprints", "Advanced", "Legs", ["Legs"], "Machines",
    ["Cardio"], [], none, none, [], none, false, 5, 102⟩

theorem free_text_tag_only_witness :
    (workoutsBrowse [wPush, wBike] ⟨"", "", "", "cardio", "name", 1, 6⟩).2 =
      ([wPush, wBike].filter (fun w => w.tags.any (rxTest "cardio"))).length ∧
    (workoutsBrowse [wPush, wBike] ⟨"", "", "", "cardio", "name", 1, 6⟩).1 =
      ((([wPush, wBike].filter (fun w => w.tags.any (rxTest "cardio"))).mergeSort
        (browseLe "name")).drop
          ((max (1 : Int) 1 - 1) * min (max (6 : Int) 1) 100).toNat).take
        (min (max (6 : Int) 1) 100).toNat :=
  free_text_tag_only [wPush, wBike] "cardio" 1 6 rfl (by decide) (by decide)

theorem relLe_trans : ∀ a b c : Workout, relLe a b = true → relLe b c = true →
    relLe a c = true := by
  intro a b c hab hbc
  simp only [relLe, Bool.or_eq_true, Bool.and_eq_true, decide_eq_true_eq] at hab hbc ⊢
  rcases hab with h1 | ⟨h1, h2 | ⟨h2, h3⟩⟩ <;> rcases hbc with h4 | ⟨h4, h5 | ⟨h5, h6⟩⟩
  · exact Or.inl (lt_trans h4 h1)
  · exact Or.inl (by rw [← h4]; exact h1)
  · exact Or.inl (by rw [← h4]; exact h1)
  · exact Or.inl (by rw [h1]; exact h4)
  · exact Or.inr ⟨h1.trans h4, Or.inl (lt_trans h5 h2)⟩
  · exact Or.inr ⟨h1.trans h4, Or.inl (by rw [← h5]; exact h2)⟩
  · exact Or.inl (by rw [h1]; exact h4)
  · exact Or.inr ⟨h1.trans h4, Or.inl (by rw [h2]; exact h5)⟩
  · exact Or.inr ⟨h1.trans h4, Or.inr ⟨h2.trans h5, h3.trans h6⟩⟩

theorem relLe_total : ∀ a b : Workout, (relLe a b || relLe b a) = true := by
  intro a b
  simp only [relLe, Bool.or_eq_true, Bool.and_eq_true, decide_eq_true_eq]
  rcases lt_trichotomy a.rating b.rating with h | h | h
  · exact Or.inr (Or.inl h)
  · rcases lt_trichotomy a.created_at b.created_at with h2 | h2 | h2
    · exact Or.inr (Or.inr ⟨h.symm, Or.inl h2⟩)
    · rcases le_total a.name b.name with h3 | h3
      · exact Or.inl (Or.inr ⟨h, Or.inr ⟨h2, h3⟩⟩)
      · exact Or.inr (Or.inr ⟨h.symm, Or.inr ⟨h2.symm, h3⟩⟩)
    · exact Or.inl (Or.inr ⟨h, Or.inl h2⟩)
  · exact Or.inl (Or.inl h)

theorem relatedFor_degenerate (docs : List Workout) (w : Workout)
    (hdeg : ((detailParts w).isEmpty && (w.style == "")) = true) :
    relatedFor docs w =
      ((docs.filter (fun x => !(x.slug == w.slug))).mergeSort relLe).take 6 := by
  have h : relatedFor docs w =
      ((docs.filter (if ((detailParts w).isEmpty && (w.style == "")) = true
        then (fun x => !(x.slug == w.slug))
        else (fun x =>
          !(x.slug == w.slug) &&
          ((!(detailParts w).isEmpty &&
              x.body_parts.any (fun b => (detailParts w).contains b)) ||
            (!(w.style == "") && x.style == w.style))))).mergeSort relLe).take 6 := rfl
  rw [h, if_pos hdeg]

theorem relatedFor_main (docs : List Workout) (w : Workout)
    (hdeg : ¬ ((detailParts w).isEmpty && (w.style == "")) = true) :
    relatedFor docs w =
      ((docs.filter (fun x =>
        !(x.slug == w.slug) &&
        ((!(detailParts w).isEmpty &&
            x.body_parts.any (fun b => (detailParts w).contains b)) ||
          (!(w.style == "") && x.style == w.style)))).mergeSort relLe).take 6 := by
  have h : relatedFor docs w =
      ((docs.filter (if ((detailParts w).isEmpty && (w.style == "")) = true
        then (fun x => !(x.slug == w.slug))
        else (fun x =>
          !(x.slug == w.slug) &&
          ((!(detailParts w).isEmpty &&
              x.body_parts.any (fun b => (detailParts w).contains b)) ||
            (!(w.style == "") && x.style == w.style))))).mergeSort relLe).take 6 := rfl
  rw [h, if_neg hdeg]

theorem mem_relatedFor (docs : List Workout) (w x : Workout)
    (hx : x ∈ relatedFor docs w) : x ∈ docs ∧
    (if ((detailParts w).isEmpty && (w.style == "")) = true
      then !(x.slug == w.slug)
      else !(x.slug == w.slug) &&
        ((!(detailParts w).isEmpty &&
            x.body_parts.any (fun b => (detailParts w).contains b)) ||
          (!(w.style == "") && x.style == w.style))) = true := by
  by_cases hdeg : ((detailParts w).isEmpty && (w.style == "")) = true
  · rw [relatedFor_degenerate docs w hdeg] at hx
    rw [if_pos hdeg]
    have h1 := (List.take_sublist _ _).subset hx
    rw [List.mem_mergeSort] at h1
    exact ⟨(List.mem_filter.mp h1).1, (List.mem_filter.mp h1).2⟩
  · rw [relatedFor_main docs w hdeg] at hx
    rw [if_neg hdeg]
    have h1 := (List.take_sublist _ _).subset hx
    rw [List.mem_mergeSort] at h1
    exact ⟨(List.mem_filter.mp h1).1, (List.mem_filter.mp h1).2⟩

/-- Claim C8: the related set of a workout detail page contains at most six other
workouts (itself excluded by slug), each sharing a body part from the parts
list or having the workout's style whenever the workout has parts or a style,
ranked by rating descending, creation time descending, then name ascending;
when the workout has neither parts nor a style, the set falls back to any
other workout with the same ranking and limit. -/
theorem related_set_spec (docs : List Workout) (slug : String) (w : Workout)
    (hfind : docs.find? (fun x => x.slug == slug) = some w) :
    workoutDetail docs slug = some (w, relatedFor docs w) ∧
    (relatedFor docs w).length ≤ 6 ∧
    ((relatedFor docs w).all (fun x => !(x.slug == w.slug))) = true ∧
    (detailParts w ≠ [] ∨ w.style ≠ "" →
      ((relatedFor docs w).all (fun x =>
        x.body_parts.any (fun b => (detailParts w).contains b) ||
        x.style == w.style)) = true) ∧
    (relatedFor docs w).Pairwise (fun a b => b.rating < a.rating ∨
      (a.rating = b.rating ∧ (b.created_at < a.created_at ∨
        (a.created_at = b.created_at ∧ a.name ≤ b.name)))) ∧
    (detailParts w = [] ∧ w.style = "" →
      (relatedFor docs w).length =
        min 6 ((docs.filter (fun x => !(x.slug == w.slug))).length)) := by
  refine ⟨?_, ?_, ?_, ?_, ?_, ?_⟩
  · unfold workoutDetail
    rw [hfind]
  · by_cases hdeg : ((detailParts w).isEmpty && (w.style == "")) = true
    · rw [relatedFor_degenerate docs w hdeg, List.length_take]
      exact min_le_left _ _
    · rw [relatedFor_main docs w hdeg, List.length_take]
      exact min_le_left _ _
  · rw [List.all_eq_true]
    intro x hx
    have h := (mem_relatedFor docs w x hx).2
    by_cases hdeg : ((detailParts w).isEmpty && (w.style == "")) = true
    · rw [if_pos hdeg] at h
      exact h
    · rw [if_neg hdeg] at h
      rw [Bool.and_eq_true] at h
      exact h.1
  · intro hnd
    rw [List.all_eq_true]
    intro x hx
    have hdeg : ¬ ((detailParts w).isEmpty && (w.style == "")) = true := by
      rcases hnd with hp | hs
      · simp [List.isEmpty_iff, hp]
      · simp [hs]
    have h := (mem_relatedFor docs w x hx).2
    rw [if_neg hdeg] at h
    rw [Bool.and_eq_true] at h
    have h2 := h.2
    rw [Bool.or_eq_true] at h2
    rw [Bool.or_eq_true]
    rcases h2 with hl | hr
    · rw [Bool.and_eq_true] at hl
      exact Or.inl hl.2
    · rw [Bool.and_eq_true] at hr
      exact Or.inr hr.2
  · have himp : ∀ pred : Workout → Bool,
        (((docs.filter pred).mergeSort relLe).take 6).Pairwise
          (fun a b => b.rating < a.rating ∨
            (a.rating = b.rating ∧ (b.created_at < a.created_at ∨
              (a.created_at = b.created_at ∧ a.name ≤ b.name)))) := by
      intro pred
      have hs := List.sorted_mergeSort relLe_trans relLe_total (docs.filter pred)
      have hp := List.Pairwise.sublist (List.take_sublist 6 _) hs
      refine hp.imp ?_
      intro a b hab
      simpa only [relLe, Bool.or_eq_true, Bool.and_eq_true, decide_eq_true_eq] using hab
    by_cases hdeg : ((detailParts w).isEmpty && (w.style == "")) = true
    · rw [relatedFor_degenerate docs w hdeg]
      exact himp _
    · rw [relatedFor_main docs w hdeg]
      exact himp _
  · intro hd
    have hdeg : ((detailParts w).isEmpty && (w.style == "")) = true := by
      simp [List.isEmpty_iff, hd.1, hd.2]
    rw [relatedFor_degenerate docs w hdeg, List.length_take,
      (List.mergeSort_perm _ _).length_eq]

def wBench : Workout :=
  ⟨4, "Bench Press", "bench-press", "Intermediate", "Chest", ["Chest"], "Barbell",
    ["press"], [], none, none, [], none, false, 5, 103⟩

theorem related_set_spec_witness :
    workoutDetail [wPush, wBench] "push-up" =
      some (wPush, relatedFor [wPush, wBench] wPush) ∧
    (relatedFor [wPush, wBench] wPush).length ≤ 6 ∧
    ((relatedFor [wPush, wBench] wPush).all (fun x =>
      x.body_parts.any (fun b => (detailParts wPush).contains b) ||
      x.style == wPush.style)) = true :=
  ⟨(related_set_spec [wPush, wBench] "push-up" wPush rfl).1,
   (related_set_spec [wPush, wBench] "push-up" wPush rfl).2.1,
   (related_set_spec [wPush, wBench] "push-up" wPush rfl).2.2.2.1
     (Or.inl (by decide))⟩

theorem slug_not_hyphen (c : Char) (h : isSlugChar c = true) : (c == '-') = false := by
  cases hb : c == '-'
  · rfl
  · exfalso
    have hc := eq_of_beq hb
    subst hc
    exact absurd h (by decide)

theorem collapse_subRun (l : List Char) :
    (∀ b, collapseRun b (subRun true l) = subRun true l) ∧
    collapseRun false (subRun false l) = subRun false l := by
  induction l with
  | nil => exact ⟨fun b => rfl, rfl⟩
  | cons c cs ih =>
    by_cases hc : isSlugChar c
    · constructor
      · intro b
        rw [subRun, if_pos hc, collapseRun, if_neg (by simp [slug_not_hyphen c hc]),
          ih.2]
      · rw [subRun, if_pos hc, collapseRun, if_neg (by simp [slug_not_hyphen c hc]),
          ih.2]
    · have hc2 : isSlugChar c = false := by simpa using hc
      constructor
      · intro b
        rw [subRun, if_neg (by simp [hc2]), if_pos rfl]
        exact ih.1 b
      · rw [subRun, if_neg (by simp [hc2]), if_neg (by simp)]
        rw [collapseRun, if_pos (by simp), if_neg (by simp)]
        rw [ih.1 true]

theorem dropWhile_hyph_subRun (l : List Char) :
    (subRun false l).dropWhile (fun c => c == '-') =
      (subRun true l).dropWhile (fun c => c == '-') := by
  cases l with
  | nil => rfl
  | cons c cs =>
    by_cases hc : isSlugChar c
    · rw [subRun, if_pos hc, subRun, if_pos hc]
    · have hc2 : isSlugChar c = false := by simpa using hc
      rw [subRun, if_neg (by simp [hc2]), if_neg (by simp),
        subRun, if_neg (by simp [hc2]), if_pos rfl,
        List.dropWhile_cons, if_pos (by simp)]

theorem stripEnds_hyph_cons_nonslug (c : Char) (m : List Char)
    (hc : isSlugChar c = false) :
    stripEnds (fun x => x == '-') (subRun false (c :: m)) =
      stripEnds (fun x => x == '-') (subRun false m) := by
  rw [subRun, if_neg (by simp [hc]), if_neg (by simp)]
  unfold stripEnds
  rw [List.dropWhile_cons, if_pos (by simp), dropWhile_hyph_subRun]

theorem subRun_append (l m : List Char) : ∀ b,
    subRun b (l ++ m) = subRun b l ++ subRun (runState b l) m := by
  induction l with
  | nil => intro b; rfl
  | cons c cs ih =>
    intro b
    by_cases hc : isSlugChar c
    · simp [subRun, runState, hc, ih false]
    · have hc2 : isSlugChar c = false := by simpa using hc
      cases b <;> simp [subRun, runState, hc2, ih true]

theorem dropWhile_append_singleton (p : Char → Bool) (x : List Char) (c : Char) :
    (x ++ [c]).dropWhile p =
      if (x.dropWhile p).isEmpty = true then [c].dropWhile p
      else x.dropWhile p ++ [c] := by
  induction x with
  | nil => simp
  | cons a t ih =>
    by_cases ha : p a
    · simp [List.dropWhile_cons, ha, ih]
    · simp [List.dropWhile_cons, ha]

theorem stripEnds_concat_of (p : Char → Bool) (c : Char) (hc : p c = true)
    (x : List Char) : stripEnds p (x ++ [c]) = stripEnds p x := by
  by_cases hemp : (x.dropWhile p).isEmpty = true
  · have hx : x.dropWhile p = [] := List.isEmpty_iff.mp hemp
    have h1 : (x ++ [c]).dropWhile p = [] := by
      rw [dropWhile_append_singleton, if_pos hemp]
      simp [List.dropWhile_cons, hc]
    unfold stripEnds
    rw [h1, hx]
  · have h1 : (x ++ [c]).dropWhile p = x.dropWhile p ++ [c] := by
      rw [dropWhile_append_singleton, if_neg hemp]
    unfold stripEnds
    rw [h1]
    unfold dropTrailing
    have h2 : (x.dropWhile p ++ [c]).reverse = c :: (x.dropWhile p).reverse := by simp
    rw [h2, List.dropWhile_cons, if_pos hc]

theorem stripEnds_hyph_concat_nonslug (a : Char) (m : List Char)
    (ha : isSlugChar a = false) (b : Bool) :
    stripEnds (fun x => x == '-') (subRun b (m ++ [a])) =
      stripEnds (fun x => x == '-') (subRun b m) := by
  rw [subRun_append m [a] b]
  cases hs : runState b m with
  | true =>
    have h1 : subRun true [a] = [] := by simp [subRun, ha]
    rw [h1, List.append_nil]
  | false =>
    have h1 : subRun false [a] = ['-'] := by simp [subRun, ha]
    rw [h1]
    exact stripEnds_concat_of _ '-' (by simp) _

theorem dropTrailing_concat_pos (p : Char → Bool) (l : List Char) (a : Char)
    (ha : p a = true) : dropTrailing p (l ++ [a]) = dropTrailing p l := by
  unfold dropTrailing
  simp [List.dropWhile_cons, ha]

theorem dropTrailing_concat_neg (p : Char → Bool) (l : List Char) (a : Char)
    (ha : p a = false) : dropTrailing p (l ++ [a]) = l ++ [a] := by
  unfold dropTrailing
  simp [List.dropWhile_cons, ha]

theorem lower_space_eq (c : Char) (h : isPySpace c = true) : lowerChar c = c := by
  simp [isPySpace] at h
  rcases h with ((((rfl | rfl) | rfl) | rfl) | rfl) | rfl <;> decide

theorem space_not_slug (c : Char) (h : isPySpace c = true) : isSlugChar c = false := by
  simp [isPySpace] at h
  rcases h with ((((rfl | rfl) | rfl) | rfl) | rfl) | rfl <;> decide

theorem front_ws (l : List Char) :
    stripEnds (fun x => x == '-')
        (subRun false ((l.dropWhile isPySpace).map lowerChar)) =
      stripEnds (fun x => x == '-') (subRun false (l.map lowerChar)) := by
  induction l with
  | nil => rfl
  | cons c cs ih =>
    by_cases hcs : isPySpace c = true
    · rw [List.dropWhile_cons, if_pos hcs, List.map_cons, lower_space_eq c hcs,
        stripEnds_hyph_cons_nonslug c _ (space_not_slug c hcs)]
      exact ih
    · rw [List.dropWhile_cons, if_neg hcs]

theorem back_ws (l : List Char) :
    stripEnds (fun x => x == '-')
        (subRun false ((dropTrailing isPySpace l).map lowerChar)) =
      stripEnds (fun x => x == '-') (subRun false (l.map lowerChar)) := by
  induction l using List.reverseRecOn with
  | nil => rfl
  | append_singleton t a ih =>
    by_cases ha : isPySpace a = true
    · rw [dropTrailing_concat_pos _ _ _ ha, ih, List.map_append]
      simp only [List.map_cons, List.map_nil]
      rw [lower_space_eq a ha,
        stripEnds_hyph_concat_nonslug a _ (space_not_slug a ha) false]
    · have ha2 : isPySpace a = false := by simpa using ha
      rw [dropTrailing_concat_neg _ _ _ ha2]

/-- Claim C10: the web application's `slugify` and the seeding script's `slugify`
agree on every input: the extra whitespace pre-strip and hyphen collapsing in
the seed version never change the result. -/
theorem slugify_agreement (s : String) : slugify s = seedSlugify s := by
  unfold slugify seedSlugify
  congr 1
  rw [(collapse_subRun _).2]
  rw [show stripEnds isPySpace s.data =
    dropTrailing isPySpace (s.data.dropWhile isPySpace) from rfl]
  rw [back_ws (s.data.dropWhile isPySpace), front_ws s.data]

end NFG
